import Mathlib

/-!
# Verification of the starkyx field and proof-challenge core

Shallow embedding of `src/field/goldilocks_field.rs` and
`curta/src/plonky2/stark/proof.rs`.  Machine integers (`u64`, `u128`,
`usize`) are embedded as `Nat` with explicit `% 2 ^ 64` (resp. `% 2 ^ 128`)
wrapping where the Rust code wraps; fallible operations (Rust panics)
return `Option` or `Except`.
-/

namespace Starkyx

/-! ## Goldilocks field (`src/field/goldilocks_field.rs`) -/

/-- `const EPSILON: u64 = (1 << 32) - 1;` -/
def EPSILON : Nat := 2 ^ 32 - 1

/-- `const ORDER: u64 = 0xFFFFFFFF00000001;` (the Goldilocks prime
`P = 2^64 - 2^32 + 1`). -/
def ORDER : Nat := 0xFFFFFFFF00000001

/-- `u64` wrapping subtraction `a.wrapping_sub b` for `a b < 2^64`. -/
def wsub (a b : Nat) : Nat := (a + 2 ^ 64 - b) % 2 ^ 64

/-- `u64` wrapping addition `a.wrapping_add b`. -/
def wadd (a b : Nat) : Nat := (a + b) % 2 ^ 64

/-- `fn split(x: u128) -> (u64, u64)`: low and high 64-bit halves. -/
def split (x : Nat) : Nat × Nat := (x % 2 ^ 64, x / 2 ^ 64)

/-- `fn reduce128(x: u128) -> GoldilocksField`, translated statement by
statement.  `x_hi >> 32` is `/ 2^32`; `x_hi & EPSILON` is `% 2^32` since
`EPSILON` is the low-32-bit mask; `overflowing_sub`/`overflowing_add`
report the borrow/carry which selects the extra `EPSILON` correction;
`x_hi_lo * EPSILON` cannot overflow a `u64` but is wrapped for fidelity. -/
def reduce128 (x : Nat) : Nat :=
  let x_lo := (split x).1
  let x_hi := (split x).2
  let x_hi_hi := x_hi / 2 ^ 32
  let x_hi_lo := x_hi % 2 ^ 32
  let t0 := wsub x_lo x_hi_hi
  let t0 := if x_lo < x_hi_hi then wsub t0 EPSILON else t0
  let t1 := x_hi_lo * EPSILON % 2 ^ 64
  let t2 := wadd t1 t0
  let t2 := if 2 ^ 64 ≤ t1 + t0 then wadd t2 EPSILON else t2
  t2

/-- `PrimeField::to_canonical_u64`: one conditional subtraction of `ORDER`. -/
def to_canonical_u64 (c : Nat) : Nat :=
  if ORDER ≤ c then c - ORDER else c

/-- `impl Add for GoldilocksField`: `overflowing_add` of `self.0` and the
canonicalised right operand, then `wrapping_sub` of `ORDER` on overflow. -/
def gadd (a b : Nat) : Nat :=
  let s := a + to_canonical_u64 b
  let sum := s % 2 ^ 64
  if 2 ^ 64 ≤ s then wsub sum ORDER else sum

/-- `impl Sub for GoldilocksField`: `overflowing_sub` of `self.0` and the
canonicalised right operand, then `wrapping_add` of `ORDER` on underflow. -/
def gsub (a b : Nat) : Nat :=
  let diff := wsub a (to_canonical_u64 b)
  if a < to_canonical_u64 b then wadd diff ORDER else diff

/-- `impl Mul for GoldilocksField`: widen to `u128` and reduce. -/
def gmul (a b : Nat) : Nat := reduce128 (a * b)

/-- Core congruence for the fast reduction, stated on the 32/64-bit pieces
of the input: `x = 2^96 * a + 2^64 * b + lo` where `a` is the high 32 bits,
`b` the next 32 bits and `lo` the low 64 bits. -/
theorem reduce128_spec (lo a b : Nat) (hlo : lo < 2 ^ 64) (ha : a < 2 ^ 32)
    (hb : b < 2 ^ 32) :
    reduce128 (2 ^ 96 * a + 2 ^ 64 * b + lo) % ORDER =
      (2 ^ 96 * a + 2 ^ 64 * b + lo) % ORDER ∧
      reduce128 (2 ^ 96 * a + 2 ^ 64 * b + lo) < 2 ^ 64 := by
  have h1 : (split (2 ^ 96 * a + 2 ^ 64 * b + lo)).1 = lo := by
    show (2 ^ 96 * a + 2 ^ 64 * b + lo) % 2 ^ 64 = lo
    omega
  have h2 : (split (2 ^ 96 * a + 2 ^ 64 * b + lo)).2 = 2 ^ 32 * a + b := by
    show (2 ^ 96 * a + 2 ^ 64 * b + lo) / 2 ^ 64 = 2 ^ 32 * a + b
    omega
  have h3 : (2 ^ 32 * a + b) / 2 ^ 32 = a := by omega
  have h4 : (2 ^ 32 * a + b) % 2 ^ 32 = b := by omega
  unfold reduce128
  simp only [h1, h2, h3, h4]
  clear h1 h2 h3 h4
  unfold wsub wadd EPSILON ORDER
  by_cases hbr : lo < a
  · rw [if_pos hbr]
    split
    · next hc =>
      have hv : ((b * (2 ^ 32 - 1) % 2 ^ 64 +
            ((lo + 2 ^ 64 - a) % 2 ^ 64 + 2 ^ 64 - (2 ^ 32 - 1)) % 2 ^ 64) % 2 ^ 64 +
            (2 ^ 32 - 1)) % 2 ^ 64 = b * (2 ^ 32 - 1) + lo - a := by omega
      rw [hv]
      omega
    · next hc =>
      have hv : (b * (2 ^ 32 - 1) % 2 ^ 64 +
            ((lo + 2 ^ 64 - a) % 2 ^ 64 + 2 ^ 64 - (2 ^ 32 - 1)) % 2 ^ 64) % 2 ^ 64
            = b * (2 ^ 32 - 1) + lo + (2 ^ 64 - (2 ^ 32 - 1)) - a := by omega
      rw [hv]
      omega
  · rw [if_neg hbr]
    split
    · next hc =>
      have hv : ((b * (2 ^ 32 - 1) % 2 ^ 64 + (lo + 2 ^ 64 - a) % 2 ^ 64) % 2 ^ 64 +
            (2 ^ 32 - 1)) % 2 ^ 64
            = b * (2 ^ 32 - 1) + lo - a - (2 ^ 64 - (2 ^ 32 - 1)) := by omega
      rw [hv]
      omega
    · next hc =>
      have hv : (b * (2 ^ 32 - 1) % 2 ^ 64 + (lo + 2 ^ 64 - a) % 2 ^ 64) % 2 ^ 64
            = b * (2 ^ 32 - 1) + lo - a := by omega
      rw [hv]
      omega

/-- Core congruence for the fast reduction: shared by the claims about
`reduce128` and the claims that build on multiplication. -/
theorem reduce128_mod (x : Nat) (hx : x < 2 ^ 128) :
    reduce128 x % ORDER = x % ORDER ∧ reduce128 x < 2 ^ 64 := by
  have hd : x = 2 ^ 96 * (x / 2 ^ 64 / 2 ^ 32) + 2 ^ 64 * (x / 2 ^ 64 % 2 ^ 32) +
      x % 2 ^ 64 := by omega
  have h := reduce128_spec (x % 2 ^ 64) (x / 2 ^ 64 / 2 ^ 32) (x / 2 ^ 64 % 2 ^ 32)
    (by omega) (by omega) (by omega)
  rwa [← hd] at h

/-- C1: for every 128-bit input `x`, the value returned by `reduce128` (the
split / borrow-corrected subtraction / `EPSILON` multiply / carry-corrected
addition sequence of the source) is a 64-bit value congruent to `x` modulo
`P = 2^64 - 2^32 + 1`; it may be a non-canonical representative. -/
theorem reduce128_congruent_mod_ORDER (x : Nat) (hx : x < 2 ^ 128) :
    reduce128 x % ORDER = x % ORDER ∧ reduce128 x < 2 ^ 64 :=
  reduce128_mod x hx

theorem reduce128_congruent_mod_ORDER_witness :
    (ORDER - 1) * (ORDER - 1) < 2 ^ 128 ∧
      (reduce128 ((ORDER - 1) * (ORDER - 1)) % ORDER =
          (ORDER - 1) * (ORDER - 1) % ORDER ∧
        reduce128 ((ORDER - 1) * (ORDER - 1)) < 2 ^ 64) :=
  ⟨by decide, reduce128_congruent_mod_ORDER ((ORDER - 1) * (ORDER - 1)) (by decide)⟩

/-- C5: on all `u64` representatives, the wrapping add (with one conditional
subtraction of `P`) and the wrapping sub (with one conditional addition of
`P`) agree, after canonicalisation, with arbitrary-precision modular
arithmetic on the canonical values. -/
theorem add_sub_agree_with_reference (a b : Nat) (ha : a < 2 ^ 64)
    (hb : b < 2 ^ 64) :
    to_canonical_u64 (gadd a b) =
        (to_canonical_u64 a + to_canonical_u64 b) % ORDER ∧
      (to_canonical_u64 (gsub a b) : Int) =
        ((to_canonical_u64 a : Int) - (to_canonical_u64 b : Int)) % (ORDER : Int) := by
  unfold gadd gsub to_canonical_u64 wsub wadd ORDER
  dsimp only
  constructor <;> (split_ifs <;> omega)

theorem add_sub_agree_with_reference_witness :
    2 ^ 64 - 1 < 2 ^ 64 ∧ 2 ^ 64 - 1 < 2 ^ 64 ∧
      (to_canonical_u64 (gadd (2 ^ 64 - 1) (2 ^ 64 - 1)) =
          (to_canonical_u64 (2 ^ 64 - 1) + to_canonical_u64 (2 ^ 64 - 1)) % ORDER ∧
        (to_canonical_u64 (gsub (2 ^ 64 - 1) (2 ^ 64 - 1)) : Int) =
          ((to_canonical_u64 (2 ^ 64 - 1) : Int) - (to_canonical_u64 (2 ^ 64 - 1) : Int)) %
            (ORDER : Int)) :=
  ⟨by decide, by decide,
    add_sub_agree_with_reference (2 ^ 64 - 1) (2 ^ 64 - 1) (by decide) (by decide)⟩

/-- C9: `to_canonical_u64` maps every `u64` representative into `[0, P)`,
preserves the value modulo `P`, is the identity on canonical inputs, and is
idempotent. -/
theorem to_canonical_u64_correct (v : Nat) (hv : v < 2 ^ 64) :
    to_canonical_u64 v < ORDER ∧
      to_canonical_u64 v % ORDER = v % ORDER ∧
      (v < ORDER → to_canonical_u64 v = v) ∧
      to_canonical_u64 (to_canonical_u64 v) = to_canonical_u64 v := by
  unfold to_canonical_u64 ORDER
  split_ifs <;> exact ⟨by omega, by omega, fun hcan => by omega, by omega⟩

/-! ## Inversion (`GoldilocksField::try_inverse`)

The routine `try_inverse_u64` that `try_inverse` delegates to lives in
`crate::field::inversion`, which is not among the given sources, so it is
modelled from the spec below.  Proving the round-trip property requires the
primality of `ORDER`, established here by a Lucas certificate with the
source's own multiplicative group generator `7`. -/

/-- Fuelled square-and-multiply modular exponentiation; `2 ^ fuel` bounds
the exponent. -/
def powModAux : Nat → Nat → Nat → Nat → Nat
  | 0, _, _, m => 1 % m
  | fuel + 1, b, e, m =>
    if e = 0 then 1 % m
    else
      let r := powModAux fuel (b * b % m) (e / 2) m
      if e % 2 = 1 then b % m * r % m else r

/-- Modular exponentiation for exponents below `2 ^ 128`. -/
def powMod (b e m : Nat) : Nat := powModAux 128 b e m

theorem powModAux_eq : ∀ (fuel b e m : Nat), 0 < m → e < 2 ^ fuel →
    powModAux fuel b e m = b ^ e % m := by
  intro fuel
  induction fuel with
  | zero =>
    intro b e m hm he
    have he0 : e = 0 := by omega
    subst he0
    simp [powModAux]
  | succ n ih =>
    intro b e m hm he
    unfold powModAux
    by_cases he0 : e = 0
    · subst he0
      simp
    · rw [if_neg he0]
      have hp : 2 ^ (n + 1) = 2 ^ n * 2 := pow_succ 2 n
      have h2 : e / 2 < 2 ^ n := by omega
      rw [ih (b * b % m) (e / 2) m hm h2]
      rw [← Nat.pow_mod]
      have hbb : (b * b) ^ (e / 2) = b ^ (2 * (e / 2)) := by
        rw [← pow_two, ← pow_mul]
      by_cases hodd : e % 2 = 1
      · rw [if_pos hodd, hbb]
        have he2 : 2 * (e / 2) + 1 = e := by omega
        calc b % m * (b ^ (2 * (e / 2)) % m) % m
            = b * b ^ (2 * (e / 2)) % m := by rw [← Nat.mul_mod]
          _ = b ^ e % m := by rw [mul_comm, ← pow_succ, he2]
      · rw [if_neg hodd, hbb]
        have he2 : 2 * (e / 2) = e := by omega
        rw [he2]

theorem powMod_eq (b e m : Nat) (hm : 0 < m) (he : e < 2 ^ 128) :
    powMod b e m = b ^ e % m := powModAux_eq 128 b e m hm he

instance : NeZero ORDER := ⟨by decide⟩

instance : Fact (1 < ORDER) := ⟨by decide⟩

/-- The prime factors of `ORDER - 1 = 2^32 * 3 * 5 * 17 * 257 * 65537`. -/
theorem prime_divisor_of_ORDER_sub_one {q : Nat} (hq : q.Prime)
    (hd : q ∣ ORDER - 1) : q = 2 ∨ q = 3 ∨ q = 5 ∨ q = 17 ∨ q = 257 ∨ q = 65537 := by
  have hfac : ORDER - 1 = 2 ^ 32 * 3 * 5 * 17 * 257 * 65537 := by decide
  rw [hfac] at hd
  rcases (hq.dvd_mul).mp hd with h1 | h1
  · rcases (hq.dvd_mul).mp h1 with h2 | h2
    · rcases (hq.dvd_mul).mp h2 with h3 | h3
      · rcases (hq.dvd_mul).mp h3 with h4 | h4
        · rcases (hq.dvd_mul).mp h4 with h5 | h5
          · exact Or.inl ((Nat.prime_dvd_prime_iff_eq hq Nat.prime_two).mp
              (hq.dvd_of_dvd_pow h5))
          · exact Or.inr (Or.inl ((Nat.prime_dvd_prime_iff_eq hq (by norm_num)).mp h5))
        · exact Or.inr (Or.inr (Or.inl
            ((Nat.prime_dvd_prime_iff_eq hq (by norm_num)).mp h4)))
      · exact Or.inr (Or.inr (Or.inr (Or.inl
          ((Nat.prime_dvd_prime_iff_eq hq (by norm_num)).mp h3))))
    · exact Or.inr (Or.inr (Or.inr (Or.inr (Or.inl
        ((Nat.prime_dvd_prime_iff_eq hq (by norm_num)).mp h2)))))
  · exact Or.inr (Or.inr (Or.inr (Or.inr (Or.inr
      ((Nat.prime_dvd_prime_iff_eq hq (by norm_num)).mp h1)))))

theorem seven_pow_cast (e : Nat) (he : e < 2 ^ 128) :
    (7 : ZMod ORDER) ^ e = ((powMod 7 e ORDER : Nat) : ZMod ORDER) := by
  rw [powMod_eq 7 e ORDER (by decide) he, ZMod.natCast_mod]
  push_cast
  ring

theorem seven_pow_ne_one (k : Nat) (hk : k < 2 ^ 128)
    (hne : powMod 7 k ORDER ≠ 1) : (7 : ZMod ORDER) ^ k ≠ 1 := by
  intro h1
  rw [seven_pow_cast k hk] at h1
  have hval := congrArg ZMod.val h1
  rw [ZMod.val_natCast, ZMod.val_one] at hval
  have hlt : powMod 7 k ORDER < ORDER := by
    rw [powMod_eq 7 k ORDER (by decide) hk]
    exact Nat.mod_lt _ (by decide)
  rw [Nat.mod_eq_of_lt hlt] at hval
  exact hne hval

/-- The Goldilocks modulus is prime: Lucas certificate with witness `7`,
the source's `MULTIPLICATIVE_GROUP_GENERATOR`. -/
theorem ORDER_prime : Nat.Prime ORDER := by
  apply lucas_primality ORDER 7
  · rw [seven_pow_cast (ORDER - 1) (by decide)]
    have hone : powMod 7 (ORDER - 1) ORDER = 1 := by decide
    rw [hone]
    exact Nat.cast_one
  · intro q hq hdvd
    rcases prime_divisor_of_ORDER_sub_one hq hdvd with rfl | rfl | rfl | rfl | rfl | rfl
    · exact seven_pow_ne_one _ (by decide) (by decide)
    · exact seven_pow_ne_one _ (by decide) (by decide)
    · exact seven_pow_ne_one _ (by decide) (by decide)
    · exact seven_pow_ne_one _ (by decide) (by decide)
    · exact seven_pow_ne_one _ (by decide) (by decide)
    · exact seven_pow_ne_one _ (by decide) (by decide)

instance : Fact (Nat.Prime ORDER) := ⟨ORDER_prime⟩

/-- Modelled from the spec: `try_inverse_u64` (from `crate::field::inversion`,
missing from the given sources).  Spec contract (§4.1): "returns no value
for the zero element; otherwise returns the unique multiplicative inverse";
the exact algorithm is left open ("any ... 64-bit modular inverse algorithm
satisfying the round-trip property" per §9), so we use Fermat
exponentiation. -/
def try_inverse_u64 (x n : Nat) : Option Nat :=
  if x % n = 0 then none else some (powMod x (n - 2) n)

/-- `Field::try_inverse for GoldilocksField`: delegates to `try_inverse_u64`
at the field order. -/
def try_inverse (x : Nat) : Option Nat := try_inverse_u64 x ORDER

/-- For any 64-bit representative, canonicalisation computes the remainder
modulo `ORDER`. -/
theorem to_canonical_eq_mod (v : Nat) (hv : v < 2 ^ 64) :
    to_canonical_u64 v = v % ORDER := by
  unfold to_canonical_u64 ORDER
  split_ifs <;> omega

theorem try_inverse_mul_mod (x y : Nat) (hsome : try_inverse x = some y) :
    x * y % ORDER = 1 ∧ y < ORDER := by
  unfold try_inverse try_inverse_u64 at hsome
  split_ifs at hsome with hz
  have hy : y = x ^ (ORDER - 2) % ORDER := by
    have hs := hsome
    rw [powMod_eq x (ORDER - 2) ORDER (by decide) (by decide)] at hs
    exact (Option.some_injective _ hs).symm
  have hylt : y < ORDER := by
    rw [hy]
    exact Nat.mod_lt _ (by decide)
  have hxz : (x : ZMod ORDER) ≠ 0 := by
    intro h0
    rw [ZMod.natCast_zmod_eq_zero_iff_dvd] at h0
    exact hz (Nat.mod_eq_zero_of_dvd h0)
  have hferm : (x : ZMod ORDER) ^ (ORDER - 1) = 1 := ZMod.pow_card_sub_one_eq_one hxz
  have hcast : ((x * y : Nat) : ZMod ORDER) = 1 := by
    rw [hy]
    push_cast
    rw [ZMod.natCast_mod]
    push_cast
    rw [mul_comm, ← pow_succ]
    have hexp : ORDER - 2 + 1 = ORDER - 1 := by decide
    rw [hexp]
    exact hferm
  have hval := congrArg ZMod.val hcast
  rw [ZMod.val_natCast, ZMod.val_one] at hval
  exact ⟨hval, hylt⟩

/-- C6: `try_inverse` returns `none` exactly on representatives of the zero
element (canonical or not), and any returned inverse multiplies back,
through `reduce128` and canonicalisation, to exactly `1`. -/
theorem try_inverse_correct (x y : Nat) (hx : x < 2 ^ 64) :
    (try_inverse x = none ↔ x % ORDER = 0) ∧
      (try_inverse x = some y → to_canonical_u64 (gmul x y) = 1) := by
  constructor
  · unfold try_inverse try_inverse_u64
    split_ifs with h
    · simp [h]
    · simp [h]
  · intro hsome
    obtain ⟨hkey, hylt⟩ := try_inverse_mul_mod x y hsome
    have hOlt : ORDER < 2 ^ 64 := by decide
    have hmul : x * y < 2 ^ 128 := by
      calc x * y ≤ (2 ^ 64 - 1) * (2 ^ 64 - 1) :=
            Nat.mul_le_mul (by omega) (by omega)
        _ < 2 ^ 128 := by norm_num
    have hred := reduce128_mod (x * y) hmul
    calc to_canonical_u64 (gmul x y) = gmul x y % ORDER :=
          to_canonical_eq_mod _ hred.2
      _ = x * y % ORDER := hred.1
      _ = 1 := hkey

set_option maxRecDepth 4000 in
theorem try_inverse_correct_witness :
    try_inverse 2 = some 9223372034707292161 ∧ 2 < 2 ^ 64 ∧
      ((try_inverse 2 = none ↔ 2 % ORDER = 0) ∧
        (try_inverse 2 = some 9223372034707292161 →
          to_canonical_u64 (gmul 2 9223372034707292161) = 1)) :=
  ⟨by decide, by decide, try_inverse_correct 2 9223372034707292161 (by decide)⟩

theorem to_canonical_u64_correct_witness :
    ORDER + 5 < 2 ^ 64 ∧
      (to_canonical_u64 (ORDER + 5) < ORDER ∧
        to_canonical_u64 (ORDER + 5) % ORDER = (ORDER + 5) % ORDER ∧
        (ORDER + 5 < ORDER → to_canonical_u64 (ORDER + 5) = ORDER + 5) ∧
        to_canonical_u64 (to_canonical_u64 (ORDER + 5)) = to_canonical_u64 (ORDER + 5)) :=
  ⟨by decide, to_canonical_u64_correct (ORDER + 5) (by decide)⟩

/-! ## STARK proof objects (`curta/src/plonky2/stark/proof.rs`)

The container types from the external plonky2 crate (`FriProof`,
`MerkleProof`, `FriOpenings`, ...) are not among the given sources; they
are modelled from the spec with exactly the fields this file reads, over
abstract element types: `F` base-field values, `E` extension values, `C`
commitment caps, `H` Merkle digests.  The `...Target` (in-circuit) variants
of these containers have the identical shape over circuit-wire types and
are represented by the same parametric structures at different type
parameters. -/

/-- Modelled from the spec: the low-degree-test configuration (`FriConfig`
of the external plonky2 crate); only `rate_bits` and `cap_height` are read
here. -/
structure FriConfig where
  rate_bits : Nat
  cap_height : Nat
  proof_of_work_bits : Nat
  num_query_rounds : Nat
deriving DecidableEq

/-- Modelled from the spec: `StarkyConfig` (from `stark/config.rs`, not
among the given sources); the fields this file reads. -/
structure StarkyConfig where
  num_challenges : Nat
  fri_config : FriConfig
deriving DecidableEq

/-- Modelled from the spec: a Merkle authentication path (plonky2
`MerkleProof`); only the sibling list is read. -/
structure MerkleProof (H : Type) where
  siblings : List H
deriving DecidableEq

/-- Modelled from the spec: plonky2 `FriInitialTreeProof`: per oracle, the
opened leaf values paired with a Merkle path. -/
structure FriInitialTreeProof (F H : Type) where
  evals_proofs : List (List F × MerkleProof H)
deriving DecidableEq

/-- Modelled from the spec: plonky2 `FriQueryRound`; only the initial-trees
proof is read. -/
structure FriQueryRound (F H : Type) where
  initial_trees_proof : FriInitialTreeProof F H
deriving DecidableEq

/-- Modelled from the spec: plonky2 `FriProof`: commit-phase caps, final
polynomial coefficients, proof-of-work witness and query rounds. -/
structure FriProof (F E C H : Type) where
  commit_phase_merkle_caps : List C
  final_poly : List E
  pow_witness : F
  query_round_proofs : List (FriQueryRound F H)
deriving DecidableEq

/-- `StarkOpeningSet`: purported values of each polynomial at the challenge
point (`proof.rs`). -/
structure StarkOpeningSet (E : Type) where
  local_values : List E
  next_values : List E
  quotient_polys : List E
deriving DecidableEq

/-- Modelled from the spec: plonky2 `FriOpeningBatch`. -/
structure FriOpeningBatch (E : Type) where
  values : List E
deriving DecidableEq

/-- Modelled from the spec: plonky2 `FriOpenings`. -/
structure FriOpenings (E : Type) where
  batches : List (FriOpeningBatch E)
deriving DecidableEq

/-- `StarkProof` (`proof.rs`): per-round trace caps, quotient cap, global
values, openings and the FRI opening proof. -/
structure StarkProof (F E C H : Type) where
  trace_caps : List C
  quotient_polys_cap : C
  global_values : List F
  openings : StarkOpeningSet E
  opening_proof : FriProof F E C H
deriving DecidableEq

/-- Modelled from the spec: round metadata (§3): a half-open index range
into the global-values sequence and a count of round-specific challenges;
supplied by the external constraint-system description
(`stark.air().round_data()`). -/
structure Round where
  global_values_range : Nat × Nat
  num_challenges : Nat
deriving DecidableEq

/-- `StarkOpeningSet::to_fri_openings`: batch 1 chains the local values
with the quotient values, batch 2 is the next values; the
`StarkOpeningSetTarget` impl is textually identical over wire types. -/
def StarkOpeningSet.to_fri_openings {E : Type} (o : StarkOpeningSet E) :
    FriOpenings E :=
  let zeta_batch : FriOpeningBatch E := ⟨o.local_values ++ o.quotient_polys⟩
  let zeta_next_batch : FriOpeningBatch E := ⟨o.next_values⟩
  ⟨[zeta_batch, zeta_next_batch]⟩

/-- `StarkProof::recover_degree_bits` (and the textually identical
`StarkProofTarget::recover_degree_bits`): reads
`query_round_proofs[0].initial_trees_proof.evals_proofs[0].1.siblings`;
the out-of-bounds indexings and the underflowing `usize` subtraction are
Rust panics, modelled as `none`. -/
def StarkProof.recover_degree_bits {F E C H : Type} (p : StarkProof F E C H)
    (config : StarkyConfig) : Option Nat :=
  match p.opening_proof.query_round_proofs with
  | [] => none
  | q :: _ =>
    match q.initial_trees_proof.evals_proofs with
    | [] => none
    | ep :: _ =>
      let lde_bits := config.fri_config.cap_height + ep.2.siblings.length
      if config.fri_config.rate_bits ≤ lde_bits then
        some (lde_bits - config.fri_config.rate_bits)
      else none

/-- C8: `to_fri_openings` produces exactly two batches, in order: local
values chained with quotient values, then next values; in particular
`local = [a, b]`, `next = [c]`, `quotient = [d]` yields `[[a, b, d], [c]]`. -/
theorem to_fri_openings_batches {E : Type} (o : StarkOpeningSet E) (a b c d : E) :
    (o.to_fri_openings).batches =
        [⟨o.local_values ++ o.quotient_polys⟩, ⟨o.next_values⟩] ∧
      (StarkOpeningSet.mk [a, b] [c] [d]).to_fri_openings =
        ⟨[⟨[a, b, d]⟩, ⟨[c]⟩]⟩ :=
  ⟨rfl, rfl⟩

/-- C7: when the first query round, its first evals proof, and a
non-underflowing subtraction exist, `recover_degree_bits` returns exactly
`cap_height + siblings.length - rate_bits`. -/
theorem recover_degree_bits_formula {F E C H : Type} (p : StarkProof F E C H)
    (config : StarkyConfig) (q : FriQueryRound F H) (qs : List (FriQueryRound F H))
    (ep : List F × MerkleProof H) (eps : List (List F × MerkleProof H))
    (hq : p.opening_proof.query_round_proofs = q :: qs)
    (he : q.initial_trees_proof.evals_proofs = ep :: eps)
    (hr : config.fri_config.rate_bits ≤
      config.fri_config.cap_height + ep.2.siblings.length) :
    p.recover_degree_bits config =
      some (config.fri_config.cap_height + ep.2.siblings.length -
        config.fri_config.rate_bits) := by
  simp [StarkProof.recover_degree_bits, hq, he, hr]

/-- A synthetic first evals proof with a 20-element sibling path. -/
def exampleEvalsProof : List Nat × MerkleProof Nat := ([], ⟨List.replicate 20 0⟩)

/-- A synthetic query round holding `exampleEvalsProof`. -/
def exampleQueryRound : FriQueryRound Nat Nat := ⟨⟨[exampleEvalsProof]⟩⟩

/-- A synthetic proof: one query round whose first evals proof has a
20-element sibling path. -/
def exampleProof : StarkProof Nat Nat Nat Nat where
  trace_caps := []
  quotient_polys_cap := 0
  global_values := []
  openings := ⟨[], [], []⟩
  opening_proof :=
    { commit_phase_merkle_caps := []
      final_poly := []
      pow_witness := 0
      query_round_proofs := [exampleQueryRound] }

/-- A synthetic config: rate bits 3, cap height 4. -/
def exampleConfig : StarkyConfig := ⟨1, ⟨3, 4, 0, 1⟩⟩

theorem recover_degree_bits_formula_witness :
    exampleProof.opening_proof.query_round_proofs = exampleQueryRound :: [] ∧
      exampleQueryRound.initial_trees_proof.evals_proofs = exampleEvalsProof :: [] ∧
      exampleConfig.fri_config.rate_bits ≤ exampleConfig.fri_config.cap_height +
        exampleEvalsProof.2.siblings.length ∧
      exampleProof.recover_degree_bits exampleConfig = some 21 :=
  ⟨rfl, rfl, by decide,
    recover_degree_bits_formula exampleProof exampleConfig exampleQueryRound []
      exampleEvalsProof [] rfl rfl (by decide)⟩

/-- C10: `recover_degree_bits` returns a value exactly when its first query
round and first evals proof exist and the subtraction does not underflow,
and then the value is the formula of C7; on all other inputs it aborts
(`none`), never returning an in-band error value. -/
theorem recover_degree_bits_partial {F E C H : Type} (p : StarkProof F E C H)
    (config : StarkyConfig) (d : Nat) :
    p.recover_degree_bits config = some d ↔
      ∃ q qs ep eps, p.opening_proof.query_round_proofs = q :: qs ∧
        q.initial_trees_proof.evals_proofs = ep :: eps ∧
        config.fri_config.rate_bits ≤
          config.fri_config.cap_height + ep.2.siblings.length ∧
        d = config.fri_config.cap_height + ep.2.siblings.length -
          config.fri_config.rate_bits := by
  unfold StarkProof.recover_degree_bits
  cases hq : p.opening_proof.query_round_proofs with
  | nil => simp
  | cons q qs =>
    cases he : q.initial_trees_proof.evals_proofs with
    | nil =>
      simp only [he]
      simp [hq, he]
    | cons ep eps =>
      simp only [he]
      split_ifs with hr
      · constructor
        · intro hd
          exact ⟨q, qs, ep, eps, rfl, he, hr, (Option.some_injective _ hd).symm⟩
        · rintro ⟨q2, qs2, ep2, eps2, hq2, he2, hr2, hd2⟩
          obtain ⟨rfl, rfl⟩ : q2 = q ∧ qs2 = qs := by
            injection hq2 with h1 h2; exact ⟨h1.symm, h2.symm⟩
          rw [he] at he2
          obtain ⟨rfl, rfl⟩ : ep2 = ep ∧ eps2 = eps := by
            injection he2 with h1 h2; exact ⟨h1.symm, h2.symm⟩
          rw [hd2]
      · constructor
        · intro hd
          exact absurd hd (by simp)
        · rintro ⟨q2, qs2, ep2, eps2, hq2, he2, hr2, hd2⟩
          obtain ⟨rfl, rfl⟩ : q2 = q ∧ qs2 = qs := by
            injection hq2 with h1 h2; exact ⟨h1.symm, h2.symm⟩
          rw [he] at he2
          obtain ⟨rfl, rfl⟩ : ep2 = ep ∧ eps2 = eps := by
            injection he2 with h1 h2; exact ⟨h1.symm, h2.symm⟩
          exact absurd hr2 hr

/-! ## Fiat-Shamir challenger (spec §4.3)

`Plonky2Challenger` and `Plonky2RecursiveChallenger` wrap the external
plonky2 sponge; their implementation is not among the given sources.
Modelled from the spec: the transcript is a deterministic random-oracle
sponge; absorbing is order-sensitive, every call mutates the state, and
every squeezed element is a deterministic function of everything absorbed
and squeezed so far.  The state is therefore the list of transcript events
so far, and squeezed values are produced by an arbitrary oracle function
`orc` of that history.  The same oracle serves the plain and the in-circuit
mode: per spec §4.3 the two modes "must produce identical challenge
sequences given identical inputs" (§2: the in-circuit contract "is
identical to the native version"). -/

/-- One transcript operation. -/
inductive Event (F E C : Type) where
  | observe (xs : List F)
  | observeCap (cap : C)
  | squeeze (n : Nat)
  | squeezeExt
  | observeOpenings (o : FriOpenings E)
deriving DecidableEq

/-- The sponge state: the full absorb/squeeze history (fresh state = `[]`,
`Challenger::new`). -/
abbrev ChallengerState (F E C : Type) := List (Event F E C)

/-- Modelled from the spec: `observe_elements` absorbs a sequence of field
elements, order-sensitively. -/
def observeElements {F E C : Type} (s : ChallengerState F E C) (xs : List F) :
    ChallengerState F E C :=
  s ++ [Event.observe xs]

/-- Modelled from the spec: `observe_cap` absorbs a commitment cap. -/
def observeCap {F E C : Type} (s : ChallengerState F E C) (cap : C) :
    ChallengerState F E C :=
  s ++ [Event.observeCap cap]

/-- Modelled from the spec: `get_n_challenges n` squeezes `n` fresh
pseudorandom elements — a function `orc` of the history — and mutates the
state. -/
def getNChallenges {F E C : Type} (orc : ChallengerState F E C → Nat → F)
    (s : ChallengerState F E C) (n : Nat) : List F × ChallengerState F E C :=
  ((List.range n).map (orc s), s ++ [Event.squeeze n])

/-- Modelled from the spec: `get_extension_challenge` squeezes exactly
`extDegree` base elements and packs them into one extension element. -/
def getExtensionChallenge {F E C : Type} (orc : ChallengerState F E C → Nat → F)
    (extDegree : Nat) (extPack : List F → E) (s : ChallengerState F E C) :
    E × ChallengerState F E C :=
  (extPack ((List.range extDegree).map (orc s)), s ++ [Event.squeezeExt])

/-- Modelled from the spec: `observe_openings` absorbs the opening batches,
batch 1 first. -/
def observeOpenings {F E C : Type} (s : ChallengerState F E C)
    (o : FriOpenings E) : ChallengerState F E C :=
  s ++ [Event.observeOpenings o]

/-- Modelled from the spec: the delegation to the external `fri_challenges`
capability (spec §4.4 step 7), recorded as the transcript state at the call
together with the arguments passed.  The plain-mode signature takes the
degree bits; the in-circuit signature does not, recorded as `none`. -/
structure FriChallengesCall (F E C : Type) where
  state : ChallengerState F E C
  commit_phase_merkle_caps : List C
  final_poly : List E
  pow_witness : F
  degree_bits : Option Nat
  fri_config : FriConfig
deriving DecidableEq

/-- `StarkProofChallenges` (and `StarkProofChallengesTarget`): the derived
challenge set. -/
structure StarkProofChallenges (F E C : Type) where
  stark_alphas : List F
  stark_betas : List F
  stark_zeta : E
  fri_challenges : FriChallengesCall F E C
deriving DecidableEq

/-- Rust `&v[i..j]`: panics (`none`) unless `i ≤ j ≤ v.len()`. -/
def sliceRange {α : Type} (l : List α) (i j : Nat) : Option (List α) :=
  if i ≤ j ∧ j ≤ l.length then some ((l.drop i).take (j - i)) else none

/-- The round loop of `StarkProof::get_challenges`:
`for (round, cap) in stark.air().round_data().iter().zip_eq(trace_caps)`.
`zip_eq` panics when one iterator is exhausted before the other; a panic is
an `error` carrying the sponge state reached when it fires. -/
def roundsLoopEq {F E C : Type} (orc : ChallengerState F E C → Nat → F)
    (gv : List F) :
    List Round → List C → ChallengerState F E C →
      Except (ChallengerState F E C) (List F × ChallengerState F E C)
  | round :: rs, cap :: cs, s =>
    match sliceRange gv round.global_values_range.1 round.global_values_range.2 with
    | none => Except.error s
    | some seg =>
      let s1 := observeElements s seg
      let s2 := observeCap s1 cap
      let rc := getNChallenges orc s2 round.num_challenges
      match roundsLoopEq orc gv rs cs rc.2 with
      | Except.error s4 => Except.error s4
      | Except.ok (rest, s4) => Except.ok (rc.1 ++ rest, s4)
  | [], [], s => Except.ok ([], s)
  | _, _, s => Except.error s

/-- The round loop of `StarkProofTarget::get_challenges_target`:
`round_data().iter().zip(trace_caps)` — plain `zip`, which stops at the
shorter sequence instead of failing. -/
def roundsLoopZip {F E C : Type} (orc : ChallengerState F E C → Nat → F)
    (gv : List F) :
    List Round → List C → ChallengerState F E C →
      Except (ChallengerState F E C) (List F × ChallengerState F E C)
  | round :: rs, cap :: cs, s =>
    match sliceRange gv round.global_values_range.1 round.global_values_range.2 with
    | none => Except.error s
    | some seg =>
      let s1 := observeElements s seg
      let s2 := observeCap s1 cap
      let rc := getNChallenges orc s2 round.num_challenges
      match roundsLoopZip orc gv rs cs rc.2 with
      | Except.error s4 => Except.error s4
      | Except.ok (rest, s4) => Except.ok (rc.1 ++ rest, s4)
  | _, _, s => Except.ok ([], s)

/-- `StarkProof::get_challenges`, translated statement by statement: fresh
challenger; observe public inputs; `zip_eq` round loop (observe the round's
global-values slice, observe the round's cap, squeeze the round's
challenges into the betas); squeeze `config.num_challenges` alphas; observe
the quotient cap; squeeze the extension challenge zeta; observe the opening
batches; delegate to `fri_challenges` with the commit-phase caps, final
polynomial, proof-of-work witness, degree bits and FRI config. -/
def StarkProof.get_challenges {F E C H : Type}
    (orc : ChallengerState F E C → Nat → F) (extDegree : Nat)
    (extPack : List F → E) (p : StarkProof F E C H) (config : StarkyConfig)
    (rounds : List Round) (public_inputs : List F) (degree_bits : Nat) :
    Except (ChallengerState F E C) (StarkProofChallenges F E C) :=
  let num_challenges := config.num_challenges
  let s0 : ChallengerState F E C := []
  let s1 := observeElements s0 public_inputs
  match roundsLoopEq orc p.global_values rounds p.trace_caps s1 with
  | Except.error s => Except.error s
  | Except.ok (challenges, s2) =>
    let ac := getNChallenges orc s2 num_challenges
    let s3 := observeCap ac.2 p.quotient_polys_cap
    let zc := getExtensionChallenge orc extDegree extPack s3
    let s4 := observeOpenings zc.2 (p.openings.to_fri_openings)
    Except.ok
      { stark_alphas := ac.1
        stark_betas := challenges
        stark_zeta := zc.1
        fri_challenges :=
          { state := s4
            commit_phase_merkle_caps := p.opening_proof.commit_phase_merkle_caps
            final_poly := p.opening_proof.final_poly
            pow_witness := p.opening_proof.pow_witness
            degree_bits := some degree_bits
            fri_config := config.fri_config } }

/-- `StarkProofTarget::get_challenges_target`, translated statement by
statement; identical to the plain derivation except that the round loop
uses plain `zip` and the `fri_challenges` delegation takes no degree-bits
argument. -/
def StarkProof.get_challenges_target {F E C H : Type}
    (orc : ChallengerState F E C → Nat → F) (extDegree : Nat)
    (extPack : List F → E) (p : StarkProof F E C H) (config : StarkyConfig)
    (rounds : List Round) (public_inputs : List F) :
    Except (ChallengerState F E C) (StarkProofChallenges F E C) :=
  let num_challenges := config.num_challenges
  let s0 : ChallengerState F E C := []
  let s1 := observeElements s0 public_inputs
  match roundsLoopZip orc p.global_values rounds p.trace_caps s1 with
  | Except.error s => Except.error s
  | Except.ok (challenges, s2) =>
    let ac := getNChallenges orc s2 num_challenges
    let s3 := observeCap ac.2 p.quotient_polys_cap
    let zc := getExtensionChallenge orc extDegree extPack s3
    let s4 := observeOpenings zc.2 (p.openings.to_fri_openings)
    Except.ok
      { stark_alphas := ac.1
        stark_betas := challenges
        stark_zeta := zc.1
        fri_challenges :=
          { state := s4
            commit_phase_merkle_caps := p.opening_proof.commit_phase_merkle_caps
            final_poly := p.opening_proof.final_poly
            pow_witness := p.opening_proof.pow_witness
            degree_bits := none
            fri_config := config.fri_config } }

/-! ### The spec's declarative form of the derivation protocol (§4.4) -/

/-- One round's slice of the global-values sequence (range from the round
metadata). -/
def gvSlice {F : Type} (gv : List F) (r : Round) : List F :=
  (gv.drop r.global_values_range.1).take
    (r.global_values_range.2 - r.global_values_range.1)

/-- The precondition that a round's range fits the global-values sequence. -/
def rangeValid {F : Type} (gv : List F) (r : Round) : Prop :=
  r.global_values_range.1 ≤ r.global_values_range.2 ∧
    r.global_values_range.2 ≤ gv.length

instance {F : Type} (gv : List F) (r : Round) : Decidable (rangeValid gv r) := by
  unfold rangeValid
  infer_instance

/-- The spec's operation sequence for one round (§4.4 step 2): absorb the
round's global-values slice, absorb its cap, squeeze its challenge count. -/
def roundEvents {F E C : Type} (gv : List F) (rc : Round × C) :
    List (Event F E C) :=
  [Event.observe (gvSlice gv rc.1), Event.observeCap rc.2,
    Event.squeeze rc.1.num_challenges]

/-- The spec's operation sequence over all rounds, in round-declared order:
the concatenation of the per-round event triples. -/
def specRoundTrace {F E C : Type} (gv : List F) :
    List (Round × C) → List (Event F E C)
  | [] => []
  | rc :: rest => roundEvents gv rc ++ specRoundTrace gv rest

/-- The betas as stated in the spec: each round's squeezed challenges — the
oracle applied to the history accumulated in round order — concatenated. -/
def specBetas {F E C : Type} (orc : ChallengerState F E C → Nat → F)
    (gv : List F) :
    ChallengerState F E C → List (Round × C) → List F
  | _, [] => []
  | s, rc :: rest =>
    (List.range rc.1.num_challenges).map
        (orc (s ++ [Event.observe (gvSlice gv rc.1), Event.observeCap rc.2])) ++
      specBetas orc gv (s ++ roundEvents gv rc) rest

theorem sliceRange_of_valid {F : Type} (gv : List F) (r : Round)
    (hv : rangeValid gv r) :
    sliceRange gv r.global_values_range.1 r.global_values_range.2 =
      some (gvSlice gv r) := by
  unfold rangeValid at hv
  unfold sliceRange gvSlice
  rw [if_pos hv]

/-- The `zip` round loop always succeeds (given in-range slices over the
zipped prefix), absorbing and squeezing exactly the spec's round sequence. -/
theorem roundsLoopZip_ok {F E C : Type} (orc : ChallengerState F E C → Nat → F)
    (gv : List F) :
    ∀ (rd : List Round) (caps : List C) (s : ChallengerState F E C),
      (∀ rc ∈ rd.zip caps, rangeValid gv rc.1) →
      roundsLoopZip orc gv rd caps s =
        Except.ok (specBetas orc gv s (rd.zip caps),
          s ++ specRoundTrace gv (rd.zip caps)) := by
  intro rd
  induction rd with
  | nil =>
    intro caps s hval
    simp [roundsLoopZip, specBetas, specRoundTrace]
  | cons r rs ih =>
    intro caps s hval
    cases caps with
    | nil => simp [roundsLoopZip, specBetas, specRoundTrace]
    | cons c cs =>
      have hv : rangeValid gv r := hval (r, c) (by simp)
      have hs := sliceRange_of_valid gv r hv
      simp only [roundsLoopZip, hs]
      rw [ih cs _ (fun rc h => hval rc (by simp [h]))]
      simp [specBetas, specRoundTrace, roundEvents, observeElements, observeCap,
        getNChallenges, List.append_assoc, List.zip]

/-- With matching lengths the `zip` loop and the `zip_eq` loop coincide. -/
theorem roundsLoopZip_eq_roundsLoopEq {F E C : Type}
    (orc : ChallengerState F E C → Nat → F) (gv : List F) :
    ∀ (rd : List Round) (caps : List C) (s : ChallengerState F E C),
      rd.length = caps.length →
      roundsLoopZip orc gv rd caps s = roundsLoopEq orc gv rd caps s := by
  intro rd
  induction rd with
  | nil =>
    intro caps s hlen
    cases caps with
    | nil => rfl
    | cons c cs => simp at hlen
  | cons r rs ih =>
    intro caps s hlen
    cases caps with
    | nil => simp at hlen
    | cons c cs =>
      simp only [roundsLoopZip, roundsLoopEq]
      cases hsl : sliceRange gv r.global_values_range.1 r.global_values_range.2 with
      | none => rfl
      | some seg =>
        dsimp only
        rw [ih cs _ (by simpa using hlen)]

/-- The `zip_eq` round loop with mismatched counts fails, but only after
absorbing the whole matched prefix. -/
theorem roundsLoopEq_mismatch {F E C : Type}
    (orc : ChallengerState F E C → Nat → F) (gv : List F) :
    ∀ (rd : List Round) (caps : List C) (s : ChallengerState F E C),
      rd.length ≠ caps.length →
      (∀ rc ∈ rd.zip caps, rangeValid gv rc.1) →
      roundsLoopEq orc gv rd caps s =
        Except.error (s ++ specRoundTrace gv (rd.zip caps)) := by
  intro rd
  induction rd with
  | nil =>
    intro caps s hlen hval
    cases caps with
    | nil => simp at hlen
    | cons c cs => simp [roundsLoopEq, specRoundTrace]
  | cons r rs ih =>
    intro caps s hlen hval
    cases caps with
    | nil => simp [roundsLoopEq, specRoundTrace]
    | cons c cs =>
      have hv : rangeValid gv r := hval (r, c) (by simp)
      have hs := sliceRange_of_valid gv r hv
      simp only [roundsLoopEq, hs]
      rw [ih cs _ (by simpa using hlen) (fun rc h => hval rc (by simp [h]))]
      simp [specRoundTrace, roundEvents, observeElements, observeCap,
        getNChallenges, List.append_assoc, List.zip]

/-- The `zip_eq` round loop with matching counts and in-range slices
succeeds with exactly the spec's betas and round trace. -/
theorem roundsLoopEq_ok {F E C : Type} (orc : ChallengerState F E C → Nat → F)
    (gv : List F) (rd : List Round) (caps : List C) (s : ChallengerState F E C)
    (hlen : rd.length = caps.length) (hval : ∀ r ∈ rd, rangeValid gv r) :
    roundsLoopEq orc gv rd caps s =
      Except.ok (specBetas orc gv s (rd.zip caps),
        s ++ specRoundTrace gv (rd.zip caps)) := by
  rw [← roundsLoopZip_eq_roundsLoopEq orc gv rd caps s hlen]
  exact roundsLoopZip_ok orc gv rd caps s
    (fun rc h => hval rc.1 (List.of_mem_zip h).1)

/-- The full operation sequence of the spec (§4.4, steps 1–6): public
inputs; the per-round triples in round order; the alphas squeeze; the
quotient cap; the zeta squeeze; the opening batches. -/
def specTrace {F E C : Type} (gv : List F) (rcs : List (Round × C))
    (public_inputs : List F) (num_challenges : Nat) (quotient_cap : C)
    (openings : FriOpenings E) : ChallengerState F E C :=
  [Event.observe public_inputs] ++ specRoundTrace gv rcs ++
    [Event.squeeze num_challenges, Event.observeCap quotient_cap,
      Event.squeezeExt, Event.observeOpenings openings]

def exceptIsOk {ε α : Type} : Except ε α → Bool
  | Except.ok _ => true
  | Except.error _ => false

/-- C2: with per-round cap pairing possible (matching counts) and in-range
global-values slices, `get_challenges` succeeds and performs exactly the
spec's ordered operation sequence: the final transcript is `specTrace`, the
betas are the per-round squeezes in round order, the alphas are squeezed
right after the rounds, zeta right after the quotient cap, and the FRI
delegation receives the final state, the commit-phase caps, the final
polynomial, the proof-of-work witness, the degree bits and the FRI config. -/
theorem get_challenges_protocol {F E C H : Type}
    (orc : ChallengerState F E C → Nat → F) (extDegree : Nat)
    (extPack : List F → E) (p : StarkProof F E C H) (config : StarkyConfig)
    (rounds : List Round) (public_inputs : List F) (degree_bits : Nat)
    (hlen : rounds.length = p.trace_caps.length)
    (hval : ∀ r ∈ rounds, rangeValid p.global_values r) :
    p.get_challenges orc extDegree extPack config rounds public_inputs
        degree_bits =
      Except.ok
        { stark_alphas := (List.range config.num_challenges).map
            (orc ([Event.observe public_inputs] ++
              specRoundTrace p.global_values (rounds.zip p.trace_caps)))
          stark_betas := specBetas orc p.global_values
            [Event.observe public_inputs] (rounds.zip p.trace_caps)
          stark_zeta := extPack ((List.range extDegree).map
            (orc ([Event.observe public_inputs] ++
              specRoundTrace p.global_values (rounds.zip p.trace_caps) ++
              [Event.squeeze config.num_challenges,
                Event.observeCap p.quotient_polys_cap])))
          fri_challenges :=
            { state := specTrace p.global_values (rounds.zip p.trace_caps)
                public_inputs config.num_challenges p.quotient_polys_cap
                (p.openings.to_fri_openings)
              commit_phase_merkle_caps := p.opening_proof.commit_phase_merkle_caps
              final_poly := p.opening_proof.final_poly
              pow_witness := p.opening_proof.pow_witness
              degree_bits := some degree_bits
              fri_config := config.fri_config } } := by
  unfold StarkProof.get_challenges
  dsimp only
  rw [roundsLoopEq_ok orc p.global_values rounds p.trace_caps _ hlen hval]
  simp [specTrace, observeElements, observeCap, observeOpenings, getNChallenges,
    getExtensionChallenge, List.append_assoc]

/-- C3: with matching counts the in-circuit derivation performs the same
absorb/squeeze sequence as the plain derivation and returns the identical
challenge set — alphas, betas, zeta, final transcript state and FRI
delegation arguments — the only difference being that the in-circuit
`fri_challenges` signature takes no degree-bits argument. -/
theorem get_challenges_target_refinement {F E C H : Type}
    (orc : ChallengerState F E C → Nat → F) (extDegree : Nat)
    (extPack : List F → E) (p : StarkProof F E C H) (config : StarkyConfig)
    (rounds : List Round) (public_inputs : List F) (degree_bits : Nat)
    (hlen : rounds.length = p.trace_caps.length) :
    p.get_challenges_target orc extDegree extPack config rounds public_inputs =
      Except.map
        (fun ch => { ch with
          fri_challenges := { ch.fri_challenges with degree_bits := none } })
        (p.get_challenges orc extDegree extPack config rounds public_inputs
          degree_bits) := by
  unfold StarkProof.get_challenges_target StarkProof.get_challenges
  dsimp only
  rw [roundsLoopZip_eq_roundsLoopEq orc p.global_values rounds p.trace_caps _ hlen]
  cases roundsLoopEq orc p.global_values rounds p.trace_caps
      (observeElements [] public_inputs) with
  | error s => rfl
  | ok pair =>
    obtain ⟨challenges, s2⟩ := pair
    rfl

/-- C4 (amended): with mismatched counts the plain `get_challenges` fails
(`zip_eq` panic), but only at the point where the shorter sequence is
exhausted — the public inputs and the whole matched prefix of rounds have
already been absorbed — while `get_challenges_target` (plain `zip`) does
not fail at all: it completes silently over the zipped prefix. -/
theorem get_challenges_mismatch {F E C H : Type}
    (orc : ChallengerState F E C → Nat → F) (extDegree : Nat)
    (extPack : List F → E) (p : StarkProof F E C H) (config : StarkyConfig)
    (rounds : List Round) (public_inputs : List F) (degree_bits : Nat)
    (hlen : rounds.length ≠ p.trace_caps.length)
    (hval : ∀ rc ∈ rounds.zip p.trace_caps, rangeValid p.global_values rc.1) :
    p.get_challenges orc extDegree extPack config rounds public_inputs
        degree_bits =
        Except.error ([Event.observe public_inputs] ++
          specRoundTrace p.global_values (rounds.zip p.trace_caps)) ∧
      exceptIsOk (p.get_challenges_target orc extDegree extPack config rounds
        public_inputs) = true := by
  constructor
  · unfold StarkProof.get_challenges
    dsimp only
    rw [roundsLoopEq_mismatch orc p.global_values rounds p.trace_caps _ hlen hval]
    simp [observeElements]
  · unfold StarkProof.get_challenges_target
    dsimp only
    rw [roundsLoopZip_ok orc p.global_values rounds p.trace_caps _ hval]
    rfl

/-! ### Concrete instantiations for the closed witnesses -/

/-- A concrete deterministic squeeze oracle over `F = E = C = Nat`. -/
def exampleOrc : ChallengerState Nat Nat Nat → Nat → Nat :=
  fun s i => s.length + i

/-- A concrete packing of squeezed base elements into an "extension"
element. -/
def examplePack : List Nat → Nat := fun l => l.foldl (fun a b => a + b) 0

/-- A concrete round: global-values range `[0, 1)`, two challenges. -/
def exampleRound : Round := ⟨(0, 1), 2⟩

/-- A concrete well-formed proof object with one trace cap. -/
def exampleProofB : StarkProof Nat Nat Nat Nat where
  trace_caps := [7]
  quotient_polys_cap := 9
  global_values := [3]
  openings := ⟨[1, 2], [4], [5]⟩
  opening_proof :=
    { commit_phase_merkle_caps := [11]
      final_poly := [13]
      pow_witness := 17
      query_round_proofs := [] }

theorem get_challenges_protocol_witness :
    ([exampleRound] : List Round).length = exampleProofB.trace_caps.length ∧
      (∀ r ∈ ([exampleRound] : List Round),
        rangeValid exampleProofB.global_values r) ∧
      exampleProofB.get_challenges exampleOrc 2 examplePack exampleConfig
          [exampleRound] [5] 3 =
        Except.ok
          { stark_alphas := (List.range exampleConfig.num_challenges).map
              (exampleOrc ([Event.observe [5]] ++
                specRoundTrace exampleProofB.global_values
                  ([exampleRound].zip exampleProofB.trace_caps)))
            stark_betas := specBetas exampleOrc exampleProofB.global_values
              [Event.observe [5]] ([exampleRound].zip exampleProofB.trace_caps)
            stark_zeta := examplePack ((List.range 2).map
              (exampleOrc ([Event.observe [5]] ++
                specRoundTrace exampleProofB.global_values
                  ([exampleRound].zip exampleProofB.trace_caps) ++
                [Event.squeeze exampleConfig.num_challenges,
                  Event.observeCap exampleProofB.quotient_polys_cap])))
            fri_challenges :=
              { state := specTrace exampleProofB.global_values
                  ([exampleRound].zip exampleProofB.trace_caps) [5]
                  exampleConfig.num_challenges exampleProofB.quotient_polys_cap
                  (exampleProofB.openings.to_fri_openings)
                commit_phase_merkle_caps :=
                  exampleProofB.opening_proof.commit_phase_merkle_caps
                final_poly := exampleProofB.opening_proof.final_poly
                pow_witness := exampleProofB.opening_proof.pow_witness
                degree_bits := some 3
                fri_config := exampleConfig.fri_config } } :=
  ⟨by decide, by decide,
    get_challenges_protocol exampleOrc 2 examplePack exampleProofB exampleConfig
      [exampleRound] [5] 3 (by decide) (by decide)⟩

theorem get_challenges_target_refinement_witness :
    ([exampleRound] : List Round).length = exampleProofB.trace_caps.length ∧
      exampleProofB.get_challenges_target exampleOrc 2 examplePack exampleConfig
          [exampleRound] [5] =
        Except.map
          (fun ch => { ch with
            fri_challenges := { ch.fri_challenges with degree_bits := none } })
          (exampleProofB.get_challenges exampleOrc 2 examplePack exampleConfig
            [exampleRound] [5] 3) :=
  ⟨by decide,
    get_challenges_target_refinement exampleOrc 2 examplePack exampleProofB
      exampleConfig [exampleRound] [5] 3 (by decide)⟩

/-- C4, the claim as stated is false: at this concrete mismatched input the
plain derivation does fail, but with the public-input absorb already
recorded in the sponge history (not "before any transcript absorb"), and
the in-circuit derivation completes silently. -/
theorem get_challenges_mismatch_counterexample :
    ([exampleRound] : List Round).length ≠ exampleProof.trace_caps.length ∧
      exampleProof.get_challenges exampleOrc 2 examplePack exampleConfig
          [exampleRound] [5] 3 =
        Except.error [Event.observe [5]] ∧
      exceptIsOk (exampleProof.get_challenges_target exampleOrc 2 examplePack
        exampleConfig [exampleRound] [5]) = true :=
  ⟨by decide, rfl, rfl⟩

theorem get_challenges_mismatch_witness :
    ([exampleRound, exampleRound] : List Round).length ≠
        exampleProofB.trace_caps.length ∧
      (∀ rc ∈ ([exampleRound, exampleRound] : List Round).zip
          exampleProofB.trace_caps,
        rangeValid exampleProofB.global_values rc.1) ∧
      (exampleProofB.get_challenges exampleOrc 2 examplePack exampleConfig
          [exampleRound, exampleRound] [5] 3 =
          Except.error ([Event.observe [5]] ++
            specRoundTrace exampleProofB.global_values
              ([exampleRound, exampleRound].zip exampleProofB.trace_caps)) ∧
        exceptIsOk (exampleProofB.get_challenges_target exampleOrc 2 examplePack
          exampleConfig [exampleRound, exampleRound] [5]) = true) :=
  ⟨by decide, by decide,
    get_challenges_mismatch exampleOrc 2 examplePack exampleProofB exampleConfig
      [exampleRound, exampleRound] [5] 3 (by decide) (by decide)⟩

end Starkyx
